import Mathlib

/-!
Verification of the server-sent-events (SSE) core of the
AsyncWebServer_WT32_ETH01 repository: the event frame encoder
`generateEventMessage`, the outbound message offsets (`ack` / `send`),
the per-client message queue with its fixed cap, and the broadcast hub.

Byte strings are modelled as `List Char` (the payloads handled by the
source are NUL-terminated C strings, so their contents are arbitrary
NUL-free character sequences; NUL handling never matters for the
properties below).  `size_t` / `uint32_t` counters are modelled as `Nat`:
the source only ever adds small buffer byte counts, so machine overflow
is unreachable for the quantities the specification talks about.
-/

/-! ### Event frame encoder (`generateEventMessage`, AsyncEventSource.cpp lines 48-159) -/

/--
Splits off the first line of a message, mirroring the scanning logic of
`generateEventMessage`: the C code computes `nextN = strchr(lineStart, '\n')`
and `nextR = strchr(lineStart, '\r')`, takes the earlier of the two as the
line end, and skips two characters exactly when the character immediately
after the line end is the *other* break character (so `\r\n` and `\n\r`
each count as a single separator).  Returns the break-free line together
with `none` (no break found: the final segment) or `some (sep, rest)`
where `sep` is the consumed separator and `rest` the remaining input.
-/
def splitFirstLine : List Char → List Char × Option (List Char × List Char)
  | [] => ([], none)
  | c :: cs =>
    if c = '\n' then
      match cs with
      | [] => ([], some (['\n'], []))
      | d :: ds => if d = '\r' then ([], some (['\n', '\r'], ds)) else ([], some (['\n'], d :: ds))
    else if c = '\r' then
      match cs with
      | [] => ([], some (['\r'], []))
      | d :: ds => if d = '\n' then ([], some (['\r', '\n'], ds)) else ([], some (['\r'], d :: ds))
    else
      let p := splitFirstLine cs
      (c :: p.1, p.2)

/-- Decimal digit character, used to model Arduino `String(uint32_t)`. -/
def decDigitChar (d : Nat) : Char := Char.ofNat (48 + d)

/--
Fuel-driven accumulator loop producing the decimal digits of `n` in front
of `acc`; `fuel ≥ n` always suffices since the value shrinks by a factor
of ten per step.
-/
def natToDecFuel : Nat → Nat → List Char → List Char
  | 0, _, acc => acc
  | f + 1, n, acc => if n = 0 then acc else natToDecFuel f (n / 10) (decDigitChar (n % 10) :: acc)

/-- Decimal rendering of a natural number, as Arduino `String(uint32_t)` prints it. -/
def natToDec (n : Nat) : List Char := if n = 0 then ['0'] else natToDecFuel n n []

/-- The field label of an SSE data line. -/
def dataMark : List Char := "data: ".toList

/--
Fuel-driven version of the `do { ... } while (lineStart < message + len)`
data-line loop of `generateEventMessage`: each non-final line is emitted as
`data: <line>\r\n`; the final (break-free) segment is emitted as
`data: <line>\r\n\r\n`; if a separator ends the message, the loop emits the
terminating blank line and stops (never producing a trailing empty data
line).  One fuel unit is consumed per emitted line, so `length + 1` fuel
always suffices.
-/
def genDataFuel : Nat → List Char → List Char
  | 0, _ => []
  | f + 1, s =>
    match splitFirstLine s with
    | (l, none) => dataMark ++ l ++ ['\r', '\n', '\r', '\n']
    | (l, some (_, r)) =>
      dataMark ++ l ++ ['\r', '\n'] ++ (if r.isEmpty then ['\r', '\n'] else genDataFuel f r)

/-- The data-line portion of an encoded frame for a non-null message. -/
def genDataLoop (s : List Char) : List Char := genDataFuel (s.length + 1) s

/--
The SSE frame encoder `generateEventMessage(message, event, id, reconnect)`:
optional `retry:`, `id:` and `event:` lines (emitted exactly when `reconnect`
is nonzero, `id` is nonzero, and `event` is non-null respectively), followed
by the data lines when `message` is non-null.  Null pointers are modelled as
`none`.
-/
def generateEventMessage (message event : Option (List Char)) (id reconnect : Nat) : List Char :=
  (if reconnect ≠ 0 then "retry: ".toList ++ natToDec reconnect ++ ['\r', '\n'] else []) ++
    (if id ≠ 0 then "id: ".toList ++ natToDec id ++ ['\r', '\n'] else []) ++
      (match event with
        | some e => "event: ".toList ++ e ++ ['\r', '\n']
        | none => []) ++
        (match message with
          | some msg => genDataLoop msg
          | none => [])

/-! ### Frame parsing and reference splitting (for the round-trip property) -/

/-- Prepends a character to the first group of a nonempty group list. -/
def consHead (c : Char) : List (List Char) → List (List Char)
  | x :: xs => (c :: x) :: xs
  | [] => [[c]]

/-- Splits a frame into its lines on the exact two-character `\r\n` separator. -/
def frameLines : List Char → List (List Char)
  | [] => [[]]
  | [c] => [[c]]
  | c :: d :: ds =>
    if c = '\r' ∧ d = '\n' then [] :: frameLines ds
    else consHead c (frameLines (d :: ds))

/-- Extracts the `data: ` line payloads of an encoded frame, in order. -/
def extractData (s : List Char) : List (List Char) :=
  (frameLines s).filterMap (fun l => if dataMark.isPrefixOf l then some (l.drop dataMark.length) else none)

/--
Fuel-driven reference splitter: decomposes a message into its lines and the
line separators actually consumed between them, using the same
`splitFirstLine` scan as the encoder.  A separator that ends the message is
recorded without a following empty line, matching the encoder's loop exit.
-/
def msgSplitFuel : Nat → List Char → List (List Char) × List (List Char)
  | 0, _ => ([], [])
  | f + 1, s =>
    match splitFirstLine s with
    | (l, none) => ([l], [])
    | (l, some (sep, r)) =>
      if r.isEmpty then ([l], [sep])
      else
        let p := msgSplitFuel f r
        (l :: p.1, sep :: p.2)

/-- Lines and separators of a message, with enough fuel to finish. -/
def msgSplit (s : List Char) : List (List Char) × List (List Char) :=
  msgSplitFuel (s.length + 1) s

/-- Rejoins lines with their recorded separators (a trailing separator is kept). -/
def joinLS : List (List Char) → List (List Char) → List Char
  | l :: ls, sep :: seps => l ++ sep ++ joinLS ls seps
  | l :: _, [] => l
  | [], _ => []

/-! ### Outbound message (`AsyncEventSourceMessage`, lines 166-230) -/

/--
An outbound message: the copied byte buffer `_data` with its length `_len`
and the send / acknowledge cursors.  The constructor
`AsyncEventSourceMessage(data, len)` copies `len` bytes and starts both
cursors at zero (allocation failure, which degrades `_len` to `0`, is not
modelled: the embedding takes the successful-allocation path).
-/
structure AsyncEventSourceMessage where
  _data : List Char
  _len : Nat
  _sent : Nat
  _acked : Nat
deriving DecidableEq

/-- The message constructor on the successful-allocation path. -/
def mkEventSourceMessage (data : List Char) : AsyncEventSourceMessage :=
  ⟨data, data.length, 0, 0⟩

/--
Acknowledge handler `AsyncEventSourceMessage::ack(len, time)` (the `time`
argument is unused by the source): advances `_acked` by `len`, capping at
`_len`, and returns the new message state together with the surplus byte
count carried to the next queued message.
-/
def AsyncEventSourceMessage.ack (m : AsyncEventSourceMessage) (len : Nat) :
    AsyncEventSourceMessage × Nat :=
  if m._acked + len > m._len then
    ({ m with _acked := m._len }, m._acked + len - m._len)
  else
    ({ m with _acked := m._acked + len }, 0)

/--
Modelled from the spec: the accessor `isFullyAcknowledged()` (named
`finished()` at the call sites in AsyncEventSource.cpp) lives in the
AsyncEventSource.h header that is absent from src/; the spec defines it as
true exactly when `ackedOffset == length`.
-/
def AsyncEventSourceMessage.finished (m : AsyncEventSourceMessage) : Bool :=
  m._acked == m._len

/--
Modelled from the spec: the accessor `sent()` used by the run-queue loop
lives in the absent AsyncEventSource.h header; per the spec a message is
"sent" once all its bytes have been submitted, i.e. `sentOffset == length`.
-/
def AsyncEventSourceMessage.sent (m : AsyncEventSourceMessage) : Bool :=
  m._sent == m._len

/--
The transport connection (the external `AsyncClient` of the excluded HTTP
layer), modelled at the boundary contract given by the spec: it reports its
available send-buffer space and whether it can currently send, submission
of accepted bytes reduces the available space, and it reports whether the
connection is still established.
-/
structure AsyncClientModel where
  space : Nat
  canSend : Bool
  connected : Bool
deriving DecidableEq

/--
Send handler `AsyncEventSourceMessage::send(client)`: if the transport's
available space is smaller than the remaining unsent byte count, nothing is
submitted and `0` is returned; otherwise all remaining bytes are submitted
(the transport accepts them all, per the boundary contract, since space was
checked), `_sent` advances by the submitted count, and that count is
returned.
-/
def AsyncEventSourceMessage.send (m : AsyncEventSourceMessage) (client : AsyncClientModel) :
    AsyncEventSourceMessage × AsyncClientModel × Nat :=
  let len := m._len - m._sent
  if client.space < len then (m, client, 0)
  else ({ m with _sent := m._sent + len }, { client with space := client.space - len }, len)

/-! ### Client session (`AsyncEventSourceClient`, lines 237-397) -/

/--
Modelled from the spec: `SSE_MAX_QUEUED_MESSAGES` is defined in the
AsyncEventSource.h header absent from src/; the spec and its scenarios give
the fixed per-session queue cap as 32.
-/
def SSE_MAX_QUEUED_MESSAGES : Nat := 32

/--
A client session: its FIFO queue of outbound messages and its transport
(`none` models `_client == NULL` after disconnect).
-/
structure AsyncEventSourceClient where
  _messageQueue : List AsyncEventSourceMessage
  _client : Option AsyncClientModel
deriving DecidableEq

/--
Modelled from the spec: `connected()` is declared in the absent
AsyncEventSource.h header; a session is connected when it still holds a
transport and that transport reports an established connection.
-/
def AsyncEventSourceClient.connected (c : AsyncEventSourceClient) : Bool :=
  match c._client with
  | some cl => cl.connected
  | none => false

/-- The `_client->canSend()` query made by `_queueMessage`. -/
def AsyncEventSourceClient.clientCanSend (c : AsyncEventSourceClient) : Bool :=
  match c._client with
  | some cl => cl.canSend
  | none => false

/--
Modelled from the spec: `packetsWaiting()` is declared in the absent
AsyncEventSource.h header; it reports the session's queued message count.
-/
def AsyncEventSourceClient.packetsWaiting (c : AsyncEventSourceClient) : Nat :=
  c._messageQueue.length

/-- The leading `while` of `_runQueue`: removes fully-acknowledged messages from the queue front. -/
def dropFinished : List AsyncEventSourceMessage → List AsyncEventSourceMessage
  | [] => []
  | m :: ms => if m.finished then dropFinished ms else m :: ms

/--
The `for` loop of `_runQueue`: walks the whole queue in order and calls
`send` on every message not yet fully submitted, threading the transport
(whose free space shrinks as bytes are accepted) through the walk.
-/
def runQueueLoop : List AsyncEventSourceMessage → AsyncClientModel →
    List AsyncEventSourceMessage × AsyncClientModel
  | [], cl => ([], cl)
  | m :: ms, cl =>
    if m.sent then
      let r := runQueueLoop ms cl
      (m :: r.1, r.2)
    else
      let s := m.send cl
      let r := runQueueLoop ms s.2.1
      (s.1 :: r.1, r.2)

/--
`AsyncEventSourceClient::_runQueue()`.  The source only invokes it with a
live transport; the `none` branch (which in C would dereference NULL in
`send`) is modelled as performing just the finished-prefix removal.
-/
def AsyncEventSourceClient._runQueue (c : AsyncEventSourceClient) : AsyncEventSourceClient :=
  match c._client with
  | none => { c with _messageQueue := dropFinished c._messageQueue }
  | some cl =>
    let r := runQueueLoop (dropFinished c._messageQueue) cl
    { c with _messageQueue := r.1, _client := some r.2 }

/--
The acknowledgment redistribution loop of `_onAck`:
`while (len && !empty) { len = front.ack(len); if (front.finished()) remove front; }`.
`ack` returns a positive surplus only when it has just capped `_acked` at
`_len` (so the front is then finished and removed, and the loop advances);
when the front is left unfinished the surplus is `0` and the loop exits, as
written below.
-/
def onAckLoop (len : Nat) (q : List AsyncEventSourceMessage) : List AsyncEventSourceMessage :=
  if len = 0 then q
  else
    match q with
    | [] => q
    | m :: ms =>
      let r := m.ack len
      if r.1.finished then onAckLoop r.2 ms else r.1 :: ms

/-- `AsyncEventSourceClient::_onAck(len, time)`: redistribute, then drain. -/
def AsyncEventSourceClient._onAck (c : AsyncEventSourceClient) (len : Nat) :
    AsyncEventSourceClient :=
  AsyncEventSourceClient._runQueue { c with _messageQueue := onAckLoop len c._messageQueue }

/-- `AsyncEventSourceClient::_onPoll()`: drain when the queue is non-empty. -/
def AsyncEventSourceClient._onPoll (c : AsyncEventSourceClient) : AsyncEventSourceClient :=
  if c._messageQueue.isEmpty then c else c._runQueue

/--
`AsyncEventSourceClient::_queueMessage(dataMessage)`: drop the message when
the session is no longer connected; discard it when the queue already holds
`SSE_MAX_QUEUED_MESSAGES` entries (logging an overflow), otherwise append
it; finally drain immediately when the transport can send.
-/
def AsyncEventSourceClient._queueMessage (c : AsyncEventSourceClient)
    (dataMessage : Option AsyncEventSourceMessage) : AsyncEventSourceClient :=
  match dataMessage with
  | none => c
  | some m =>
    if c.connected = false then c
    else
      let c1 :=
        if SSE_MAX_QUEUED_MESSAGES ≤ c._messageQueue.length then c
        else { c with _messageQueue := c._messageQueue ++ [m] }
      if c.clientCanSend then c1._runQueue else c1

/-- `AsyncEventSourceClient::write(message, len)`: wrap the bytes in a fresh message and enqueue it. -/
def AsyncEventSourceClient.write (c : AsyncEventSourceClient) (message : List Char) :
    AsyncEventSourceClient :=
  c._queueMessage (some (mkEventSourceMessage message))

/-! ### Broadcast hub (`AsyncEventSource`, lines 404-539) -/

/-- The broadcast hub for one streaming endpoint: its URL and registered sessions. -/
structure AsyncEventSource where
  _url : List Char
  _clients : List AsyncEventSourceClient
deriving DecidableEq

/-- `AsyncEventSource::_addClient`: register a freshly admitted session (the list appends at the tail). -/
def AsyncEventSource._addClient (s : AsyncEventSource) (c : AsyncEventSourceClient) :
    AsyncEventSource :=
  { s with _clients := s._clients ++ [c] }

/-- `AsyncEventSource::_handleDisconnect`: remove the session (identified here by its position). -/
def AsyncEventSource._handleDisconnect (s : AsyncEventSource) (i : Nat) : AsyncEventSource :=
  { s with _clients := s._clients.eraseIdx i }

/--
Modelled from the spec: closing a session's transport (`_client->close()`
on the external AsyncClient) makes the transport stop reporting an
established connection; per the spec the session "detaches and is cleaned
up via its own disconnect callback, not synchronously", so the session
stays registered until that callback runs.
-/
def closeTransport (c : AsyncEventSourceClient) : AsyncEventSourceClient :=
  { c with _client := c._client.map (fun cl => { cl with connected := false }) }

/-- `AsyncEventSource::close()`: close every connected session's transport. -/
def AsyncEventSource.close (s : AsyncEventSource) : AsyncEventSource :=
  { s with _clients := s._clients.map (fun c => if c.connected then closeTransport c else c) }

/-- The number of listed sessions whose transport reports connected - the divisor of `avgPacketsWaiting`. -/
def nConnectedClients (s : AsyncEventSource) : Nat :=
  (s._clients.filter (fun c => c.connected)).length

/--
`AsyncEventSource::avgPacketsWaiting()`: zero for an empty client list,
otherwise the rounding division `(aql + n / 2) / n` where `aql` sums the
queued packet counts of connected sessions and `n` counts them.
-/
def AsyncEventSource.avgPacketsWaiting (s : AsyncEventSource) : Nat :=
  if s._clients.isEmpty then 0
  else
    (((s._clients.filter (fun c => c.connected)).map
        (fun c => c.packetsWaiting)).sum + nConnectedClients s / 2) / nConnectedClients s

/-- `AsyncEventSource::send`: encode the frame once, then `write` it to every connected session. -/
def AsyncEventSource.send (s : AsyncEventSource) (message event : Option (List Char))
    (id reconnect : Nat) : AsyncEventSource :=
  let ev := generateEventMessage message event id reconnect
  { s with _clients := s._clients.map (fun c => if c.connected then c.write ev else c) }

/-- `AsyncEventSource::count()`: the number of connected sessions. -/
def AsyncEventSource.count (s : AsyncEventSource) : Nat :=
  (s._clients.filter (fun c => c.connected)).length

/-- Applies a function to the element at position `i` of a list, if any. -/
def updateAt {α : Type} (f : α → α) : Nat → List α → List α
  | _, [] => []
  | 0, x :: xs => f x :: xs
  | i + 1, x :: xs => x :: updateAt f i xs

/--
Hub states reachable in the single-threaded event-loop model: starting from
an empty hub, a step is a session admission (a fresh session with an empty
queue and a live transport), a broadcast send, a per-session transport
acknowledge or poll callback, a session disconnect callback (which removes
the session), or a hub close (which closes every connected transport, the
sessions detaching only later via their own disconnect callbacks).
-/
inductive ReachableHub : AsyncEventSource → Prop where
  | init (url : List Char) : ReachableHub ⟨url, []⟩
  | admitSession (s : AsyncEventSource) (cl : AsyncClientModel) :
      ReachableHub s → cl.connected = true → ReachableHub (s._addClient ⟨[], some cl⟩)
  | sendEvent (s : AsyncEventSource) (message event : Option (List Char)) (id reconnect : Nat) :
      ReachableHub s → ReachableHub (s.send message event id reconnect)
  | ackEvent (s : AsyncEventSource) (i len : Nat) :
      ReachableHub s →
      ReachableHub { s with _clients := updateAt (fun c => c._onAck len) i s._clients }
  | pollEvent (s : AsyncEventSource) (i : Nat) :
      ReachableHub s →
      ReachableHub { s with _clients := updateAt (fun c => c._onPoll) i s._clients }
  | discEvent (s : AsyncEventSource) (i : Nat) :
      ReachableHub s → ReachableHub (s._handleDisconnect i)
  | closeHub (s : AsyncEventSource) :
      ReachableHub s → ReachableHub s.close

/-! ### Derived quantities used by the claims -/

/-- Total unacknowledged byte count of a queue. -/
def totalUnacked (q : List AsyncEventSourceMessage) : Nat :=
  (q.map (fun m => m._len - m._acked)).sum

/-- Per-queue well-formedness: no message has acknowledged more than its length. -/
def QInv (q : List AsyncEventSourceMessage) : Prop :=
  ∀ m ∈ q, m._acked ≤ m._len

/-- The data-model invariant of an outbound message: `0 ≤ ackedOffset ≤ sentOffset ≤ length`. -/
def MsgInv (m : AsyncEventSourceMessage) : Prop :=
  m._acked ≤ m._sent ∧ m._sent ≤ m._len

/-- The number of queued messages whose buffer holds the given bytes. -/
def countFrame (q : List AsyncEventSourceMessage) (bytes : List Char) : Nat :=
  List.countP (fun e => e._data == bytes) q

instance (q : List AsyncEventSourceMessage) : Decidable (QInv q) := by
  unfold QInv
  infer_instance

instance (m : AsyncEventSourceMessage) : Decidable (MsgInv m) := by
  unfold MsgInv
  infer_instance

/-! ### Lemmas about `splitFirstLine` -/

/-- When no break is found, the whole input is the (break-free) line. -/
theorem splitFirstLine_none : ∀ (s l : List Char), splitFirstLine s = (l, none) →
    s = l ∧ ∀ c ∈ l, c ≠ '\n' ∧ c ≠ '\r' := by
  intro s
  induction s with
  | nil =>
    intro l h
    simp [splitFirstLine] at h
    subst h
    simp
  | cons c cs ih =>
    intro l h
    by_cases hn : c = '\n'
    · subst hn
      cases cs with
      | nil => simp [splitFirstLine] at h
      | cons d ds =>
        by_cases hd : d = '\r' <;> simp [splitFirstLine, hd] at h
    · by_cases hr : c = '\r'
      · subst hr
        cases cs with
        | nil => simp [splitFirstLine] at h
        | cons d ds =>
          by_cases hd : d = '\n' <;> simp [splitFirstLine, hd] at h
      · simp [splitFirstLine, hn, hr] at h
        obtain ⟨h1, h2⟩ := h
        obtain ⟨he, hm⟩ := ih (splitFirstLine cs).1 (by rw [← h2])
        subst h1
        refine ⟨by rw [← he], ?_⟩
        intro x hx
        rcases List.mem_cons.mp hx with rfl | hx
        · exact ⟨hn, hr⟩
        · exact hm x hx

/-- When a break is found, the input decomposes as line ++ separator ++ rest. -/
theorem splitFirstLine_some : ∀ (s l sep r : List Char), splitFirstLine s = (l, some (sep, r)) →
    s = l ++ sep ++ r ∧ (∀ c ∈ l, c ≠ '\n' ∧ c ≠ '\r') ∧ sep ≠ [] := by
  intro s
  induction s with
  | nil =>
    intro l sep r h
    simp [splitFirstLine] at h
  | cons c cs ih =>
    intro l sep r h
    by_cases hn : c = '\n'
    · subst hn
      cases cs with
      | nil =>
        simp [splitFirstLine] at h
        obtain ⟨rfl, rfl, rfl⟩ := h
        simp
      | cons d ds =>
        by_cases hd : d = '\r'
        · subst hd
          simp [splitFirstLine] at h
          obtain ⟨rfl, rfl, rfl⟩ := h
          simp
        · simp [splitFirstLine, hd] at h
          obtain ⟨rfl, rfl, rfl⟩ := h
          simp
    · by_cases hr : c = '\r'
      · subst hr
        cases cs with
        | nil =>
          simp [splitFirstLine, hn] at h
          obtain ⟨rfl, rfl, rfl⟩ := h
          simp
        | cons d ds =>
          by_cases hd : d = '\n'
          · subst hd
            simp [splitFirstLine, hn] at h
            obtain ⟨rfl, rfl, rfl⟩ := h
            simp
          · simp [splitFirstLine, hn, hd] at h
            obtain ⟨rfl, rfl, rfl⟩ := h
            simp
      · simp [splitFirstLine, hn, hr] at h
        obtain ⟨h1, h2⟩ := h
        obtain ⟨he, hm, hs⟩ := ih (splitFirstLine cs).1 sep r (by rw [← h2])
        subst h1
        refine ⟨by rw [List.cons_append, List.cons_append, ← he], ?_, hs⟩
        intro x hx
        rcases List.mem_cons.mp hx with rfl | hx
        · exact ⟨hn, hr⟩
        · exact hm x hx

/-- The rest after a consumed separator is strictly shorter than the input. -/
theorem splitFirstLine_rest_lt (s l sep r : List Char) (h : splitFirstLine s = (l, some (sep, r))) :
    r.length < s.length := by
  obtain ⟨he, -, hs⟩ := splitFirstLine_some s l sep r h
  subst he
  have : 0 < sep.length := List.length_pos.mpr hs
  simp [List.length_append]
  omega

/-! ### Fuel irrelevance and unfold equations for the fuel-driven loops -/

/-- Any sufficient fuel computes the same data-line output. -/
theorem genDataFuel_congr : ∀ (f₁ f₂ : Nat) (s : List Char), s.length < f₁ → s.length < f₂ →
    genDataFuel f₁ s = genDataFuel f₂ s := by
  intro f₁
  induction f₁ with
  | zero => intro f₂ s h1; omega
  | succ f ihf =>
    intro f₂ s h1 h2
    cases f₂ with
    | zero => omega
    | succ g =>
      rcases hsp : splitFirstLine s with ⟨l, o⟩
      cases o with
      | none => simp [genDataFuel, hsp]
      | some p =>
        rcases p with ⟨sep, r⟩
        have hlt := splitFirstLine_rest_lt s l sep r hsp
        by_cases hre : r.isEmpty
        · simp [genDataFuel, hsp, hre]
        · simp only [genDataFuel, hsp, hre, if_neg, Bool.false_eq_true, not_false_iff]
          rw [ihf g r (by omega) (by omega)]

/-- Unfold equation of `genDataLoop` when the input has no line break. -/
theorem genDataLoop_none (s l : List Char) (h : splitFirstLine s = (l, none)) :
    genDataLoop s = dataMark ++ l ++ ['\r', '\n', '\r', '\n'] := by
  simp [genDataLoop, genDataFuel, h]

/-- Unfold equation of `genDataLoop` when a separator is consumed. -/
theorem genDataLoop_some (s l sep r : List Char) (h : splitFirstLine s = (l, some (sep, r))) :
    genDataLoop s =
      dataMark ++ l ++ ['\r', '\n'] ++ (if r.isEmpty then ['\r', '\n'] else genDataLoop r) := by
  have hlt := splitFirstLine_rest_lt s l sep r h
  have h1 : genDataLoop s =
      dataMark ++ l ++ ['\r', '\n'] ++ (if r.isEmpty then ['\r', '\n'] else genDataFuel s.length r) := by
    simp only [genDataLoop, genDataFuel, h]
  rw [h1]
  by_cases hre : r.isEmpty
  · simp [hre]
  · simp only [hre, Bool.false_eq_true, if_false]
    rw [genDataFuel_congr s.length (r.length + 1) r (by omega) (by omega)]
    rfl

/-- Any sufficient fuel computes the same line/separator split. -/
theorem msgSplitFuel_congr : ∀ (f₁ f₂ : Nat) (s : List Char), s.length < f₁ → s.length < f₂ →
    msgSplitFuel f₁ s = msgSplitFuel f₂ s := by
  intro f₁
  induction f₁ with
  | zero => intro f₂ s h1; omega
  | succ f ihf =>
    intro f₂ s h1 h2
    cases f₂ with
    | zero => omega
    | succ g =>
      rcases hsp : splitFirstLine s with ⟨l, o⟩
      cases o with
      | none => simp [msgSplitFuel, hsp]
      | some p =>
        rcases p with ⟨sep, r⟩
        have hlt := splitFirstLine_rest_lt s l sep r hsp
        by_cases hre : r.isEmpty
        · simp [msgSplitFuel, hsp, hre]
        · simp only [msgSplitFuel, hsp, hre, if_neg, Bool.false_eq_true, not_false_iff]
          rw [ihf g r (by omega) (by omega)]

/-- Unfold equation of `msgSplit` when the input has no line break. -/
theorem msgSplit_none (s l : List Char) (h : splitFirstLine s = (l, none)) :
    msgSplit s = ([l], []) := by
  simp [msgSplit, msgSplitFuel, h]

/-- Unfold equation of `msgSplit` when a separator is consumed. -/
theorem msgSplit_some (s l sep r : List Char) (h : splitFirstLine s = (l, some (sep, r))) :
    msgSplit s =
      if r.isEmpty then ([l], [sep]) else (l :: (msgSplit r).1, sep :: (msgSplit r).2) := by
  have hlt := splitFirstLine_rest_lt s l sep r h
  have h1 : msgSplit s =
      if r.isEmpty then ([l], [sep])
      else (l :: (msgSplitFuel s.length r).1, sep :: (msgSplitFuel s.length r).2) := by
    simp only [msgSplit, msgSplitFuel, h]
  rw [h1]
  by_cases hre : r.isEmpty
  · simp [hre]
  · simp only [hre, Bool.false_eq_true, if_false]
    rw [msgSplitFuel_congr s.length (r.length + 1) r (by omega) (by omega)]
    rfl

/-! ### Lemmas about frame parsing -/

/-- A frame starting with an ordinary character pushes it onto the first parsed line. -/
theorem frameLines_cons_ne (x : Char) (t : List Char) (hx : x ≠ '\r') (ht : t ≠ []) :
    frameLines (x :: t) = consHead x (frameLines t) := by
  cases t with
  | nil => exact absurd rfl ht
  | cons d ds => simp [frameLines, hx]

/-- Parsing a break-free line followed by `\r\n` yields that line first. -/
theorem frameLines_append (a rest : List Char) (ha : '\r' ∉ a) :
    frameLines (a ++ '\r' :: '\n' :: rest) = a :: frameLines rest := by
  induction a with
  | nil => simp [frameLines]
  | cons x xs ih =>
    have hx : x ≠ '\r' := by
      intro hc
      exact ha (by simp [hc])
    have hxs : '\r' ∉ xs := fun hc => ha (List.mem_cons_of_mem x hc)
    rw [List.cons_append, frameLines_cons_ne x (xs ++ '\r' :: '\n' :: rest) hx (by simp),
      ih hxs, consHead]

/-- A proper list is a prefix of itself extended by anything. -/
theorem isPrefixOf_self_append (p t : List Char) : p.isPrefixOf (p ++ t) = true := by
  rw [List.isPrefixOf_iff_prefix]
  exact List.prefix_append p t

/-- Differing heads defeat the boolean prefix test. -/
theorem isPrefixOf_head_ne (a b : Char) (as bs : List Char) (h : a ≠ b) :
    (a :: as).isPrefixOf (b :: bs) = false := by
  simp [List.isPrefixOf, h]

/-- A metadata line (no carriage return, not starting with `data: `) contributes no payload. -/
theorem extractData_skip (content rest : List Char) (hcr : '\r' ∉ content)
    (hpf : dataMark.isPrefixOf content = false) :
    extractData (content ++ '\r' :: '\n' :: rest) = extractData rest := by
  unfold extractData
  rw [frameLines_append content rest hcr, List.filterMap_cons, hpf]
  simp

/-- A data line contributes exactly its payload. -/
theorem extractData_dataline (l rest : List Char) (hl : '\r' ∉ l) :
    extractData (dataMark ++ l ++ '\r' :: '\n' :: rest) = l :: extractData rest := by
  have hnc : '\r' ∉ dataMark ++ l := by
    intro hc
    rcases List.mem_append.mp hc with hc | hc
    · revert hc
      decide
    · exact hl hc
  unfold extractData
  rw [frameLines_append (dataMark ++ l) rest hnc, List.filterMap_cons, isPrefixOf_self_append]
  simp [List.drop_left]

/-- The residue of a frame after its last data line holds no further payload. -/
theorem extractData_tail_empty : extractData ['\r', '\n'] = [] := by decide

/-- The empty frame holds no payload. -/
theorem extractData_nil : extractData [] = [] := by decide

/-! ### The data lines of an encoded frame are exactly the split lines -/

/-- Auxiliary: the payload extraction inverts the data-line emission, by strong induction on length. -/
theorem extractData_genData_aux : ∀ (n : Nat) (s : List Char), s.length ≤ n →
    extractData (genDataLoop s) = (msgSplit s).1 := by
  intro n
  induction n with
  | zero =>
    intro s hs
    have hnil : s = [] := List.length_eq_zero.mp (Nat.le_zero.mp hs)
    subst hnil
    decide
  | succ n ih =>
    intro s hs
    rcases hsp : splitFirstLine s with ⟨l, o⟩
    cases o with
    | none =>
      obtain ⟨-, hm⟩ := splitFirstLine_none s l hsp
      have hl : '\r' ∉ l := fun hc => (hm _ hc).2 rfl
      rw [genDataLoop_none s l hsp, msgSplit_none s l hsp,
        extractData_dataline l ['\r', '\n'] hl, extractData_tail_empty]
    | some p =>
      rcases p with ⟨sep, r⟩
      obtain ⟨he, hm, -⟩ := splitFirstLine_some s l sep r hsp
      have hl : '\r' ∉ l := fun hc => (hm _ hc).2 rfl
      have hlt := splitFirstLine_rest_lt s l sep r hsp
      rw [genDataLoop_some s l sep r hsp, msgSplit_some s l sep r hsp]
      by_cases hre : r.isEmpty
      · simp only [hre, if_true]
        rw [List.append_assoc (dataMark ++ l)]
        simp only [List.cons_append, List.nil_append]
        rw [extractData_dataline l ['\r', '\n'] hl, extractData_tail_empty]
      · simp only [hre, Bool.false_eq_true, if_false]
        rw [List.append_assoc (dataMark ++ l)]
        simp only [List.cons_append, List.nil_append]
        rw [extractData_dataline l (genDataLoop r) hl, ih r (by omega)]

/-- The payload extraction of the data-line block returns exactly the split lines. -/
theorem extractData_genData (s : List Char) :
    extractData (genDataLoop s) = (msgSplit s).1 :=
  extractData_genData_aux s.length s le_rfl

/-! ### Rejoining the split lines with their separators restores the message -/

/-- Auxiliary for the rejoin property, by strong induction on length. -/
theorem joinLS_msgSplit_aux : ∀ (n : Nat) (s : List Char), s.length ≤ n →
    joinLS (msgSplit s).1 (msgSplit s).2 = s := by
  intro n
  induction n with
  | zero =>
    intro s hs
    have hnil : s = [] := List.length_eq_zero.mp (Nat.le_zero.mp hs)
    subst hnil
    decide
  | succ n ih =>
    intro s hs
    rcases hsp : splitFirstLine s with ⟨l, o⟩
    cases o with
    | none =>
      obtain ⟨he, -⟩ := splitFirstLine_none s l hsp
      rw [msgSplit_none s l hsp]
      simpa [joinLS] using he.symm
    | some p =>
      rcases p with ⟨sep, r⟩
      obtain ⟨he, -, -⟩ := splitFirstLine_some s l sep r hsp
      have hlt := splitFirstLine_rest_lt s l sep r hsp
      rw [msgSplit_some s l sep r hsp]
      by_cases hre : r.isEmpty
      · have hr : r = [] := List.isEmpty_iff.mp hre
        subst hr
        simp only [if_true, hre]
        simp [joinLS, he]
      · simp only [hre, Bool.false_eq_true, if_false]
        simp only [joinLS]
        rw [ih r (by omega), he, List.append_assoc]

/-- Rejoining the lines with the separators actually consumed restores the message. -/
theorem joinLS_msgSplit (s : List Char) : joinLS (msgSplit s).1 (msgSplit s).2 = s :=
  joinLS_msgSplit_aux s.length s le_rfl

/-! ### The optional metadata lines never contribute payload -/

/-- Digits are not control characters. -/
theorem decDigitChar_ne_cr (d : Nat) (hd : d < 10) : decDigitChar d ≠ '\r' := by
  interval_cases d <;> decide

/-- The decimal accumulator loop only ever adds digit characters. -/
theorem natToDecFuel_no_cr : ∀ (f n : Nat) (acc : List Char), (∀ c ∈ acc, c ≠ '\r') →
    ∀ c ∈ natToDecFuel f n acc, c ≠ '\r' := by
  intro f
  induction f with
  | zero => intro n acc hacc; exact hacc
  | succ f ihf =>
    intro n acc hacc c hc
    by_cases hn : n = 0
    · rw [natToDecFuel, if_pos hn] at hc
      exact hacc c hc
    · rw [natToDecFuel, if_neg hn] at hc
      refine ihf (n / 10) _ ?_ c hc
      intro x hx
      rcases List.mem_cons.mp hx with rfl | hx
      · exact decDigitChar_ne_cr _ (Nat.mod_lt _ (by omega))
      · exact hacc x hx

/-- A rendered decimal number contains no carriage return. -/
theorem natToDec_no_cr (n : Nat) : '\r' ∉ natToDec n := by
  intro hc
  unfold natToDec at hc
  by_cases hn : n = 0
  · rw [if_pos hn] at hc
    revert hc
    decide
  · rw [if_neg hn] at hc
    exact natToDecFuel_no_cr n n [] (by simp) '\r' hc rfl

/-- The optional `retry:` line contributes no data payload. -/
theorem extractData_retryPiece (ry : Nat) (rest : List Char) :
    extractData ((if ry ≠ 0 then "retry: ".toList ++ natToDec ry ++ ['\r', '\n'] else []) ++ rest) =
      extractData rest := by
  by_cases h : ry = 0
  · simp [h]
  · rw [if_pos h, List.append_assoc ("retry: ".toList ++ natToDec ry)]
    simp only [List.cons_append, List.nil_append]
    refine extractData_skip _ rest ?_ ?_
    · intro hc
      rcases List.mem_append.mp hc with hc | hc
      · revert hc
        decide
      · exact natToDec_no_cr ry hc
    · exact isPrefixOf_head_ne 'd' 'r' _ _ (by decide)

/-- The optional `id:` line contributes no data payload. -/
theorem extractData_idPiece (idv : Nat) (rest : List Char) :
    extractData ((if idv ≠ 0 then "id: ".toList ++ natToDec idv ++ ['\r', '\n'] else []) ++ rest) =
      extractData rest := by
  by_cases h : idv = 0
  · simp [h]
  · rw [if_pos h, List.append_assoc ("id: ".toList ++ natToDec idv)]
    simp only [List.cons_append, List.nil_append]
    refine extractData_skip _ rest ?_ ?_
    · intro hc
      rcases List.mem_append.mp hc with hc | hc
      · revert hc
        decide
      · exact natToDec_no_cr idv hc
    · exact isPrefixOf_head_ne 'd' 'i' _ _ (by decide)

/-- The `event:` line for a carriage-return-free event name contributes no data payload. -/
theorem extractData_eventPiece (e rest : List Char) (hev : '\r' ∉ e) :
    extractData (("event: ".toList ++ e ++ ['\r', '\n']) ++ rest) = extractData rest := by
  rw [List.append_assoc ("event: ".toList ++ e)]
  simp only [List.cons_append, List.nil_append]
  refine extractData_skip _ rest ?_ ?_
  · intro hc
    rcases List.mem_append.mp hc with hc | hc
    · revert hc
      decide
    · exact hev hc
  · exact isPrefixOf_head_ne 'd' 'e' _ _ (by decide)

/-- The metadata lines of a frame never contribute data payload. -/
theorem extractData_generateEventMessage (message event : Option (List Char)) (idv ry : Nat)
    (hev : ∀ e, event = some e → '\r' ∉ e) :
    extractData (generateEventMessage message event idv ry) =
      extractData (match message with
        | some m => genDataLoop m
        | none => []) := by
  unfold generateEventMessage
  rw [List.append_assoc, List.append_assoc, extractData_retryPiece, extractData_idPiece]
  cases event with
  | none => simp
  | some e => exact extractData_eventPiece e _ (hev e rfl)

/--
A frame ending with a metadata line (`content ++ "\r\n"`, where `content`
is at least two characters long and free of carriage returns) does not end
with the blank-line frame terminator.
-/
theorem no_blank_suffix (xs content : List Char) (h2 : 2 ≤ content.length)
    (hcr : '\r' ∉ content) :
    ¬ (['\r', '\n', '\r', '\n'] <:+ xs ++ (content ++ ['\r', '\n'])) := by
  intro h
  rw [← List.reverse_prefix, List.reverse_append, List.reverse_append] at h
  obtain ⟨a, t1, h1⟩ :=
    List.exists_cons_of_ne_nil (show content.reverse ≠ [] by
      intro hc
      rw [List.reverse_eq_nil_iff] at hc
      subst hc
      simp at h2)
  obtain ⟨b, t2, h2'⟩ :=
    List.exists_cons_of_ne_nil (show t1 ≠ [] by
      intro hc
      have := congrArg List.length h1
      rw [hc] at this
      simp at this
      omega)
  subst h2'
  rw [show (['\r', '\n', '\r', '\n'] : List Char).reverse = ['\n', '\r', '\n', '\r'] from rfl,
    show (['\r', '\n'] : List Char).reverse = ['\n', '\r'] from rfl, h1] at h
  simp only [List.cons_append, List.nil_append, List.cons_prefix_cons] at h
  have hb : b = '\r' := (h.2.2.2.1).symm
  have hbm : b ∈ content := List.mem_reverse.mp (by rw [h1]; exact List.mem_cons_of_mem a (List.mem_cons_self b t2))
  exact hcr (hb ▸ hbm)

/-! ### Claim C1: the encoder is bit-exact on the two reference scenarios -/

/--
C1: the frame encoder is bit-exact with the SSE wire format on the spec's
two reference scenarios: `(message="hello", event=null, id=0, retry=0)`
encodes to exactly `"data: hello\r\n\r\n"`, and
`(message="line1\nline2", event="update", id=5, retry=3000)` encodes to
exactly `"retry: 3000\r\nid: 5\r\nevent: update\r\ndata: line1\r\ndata: line2\r\n\r\n"`.
-/
theorem C1_frame_encoder_scenarios :
    generateEventMessage (some "hello".toList) none 0 0 = "data: hello\r\n\r\n".toList ∧
    generateEventMessage (some "line1\nline2".toList) (some "update".toList) 5 3000 =
      "retry: 3000\r\nid: 5\r\nevent: update\r\ndata: line1\r\ndata: line2\r\n\r\n".toList := by
  exact ⟨rfl, rfl⟩

/-! ### Claim C2: data-payload round trip -/

/--
C2: for every input string, encoding it and then extracting the frame's
`data:` line payloads yields exactly the lines obtained by splitting the
input on `\r\n`, `\r` or `\n` (a directly adjacent opposite break character
being absorbed into the same separator), and rejoining those lines with the
separators actually consumed reproduces the original message exactly.  The
`retry:`/`id:`/`event:` metadata lines contribute no payload (stated for
event names free of carriage returns, as any well-formed SSE event name is).
-/
theorem C2_roundtrip (m : List Char) (event : Option (List Char)) (idv ry : Nat)
    (hev : ∀ e, event = some e → '\r' ∉ e) :
    extractData (generateEventMessage (some m) event idv ry) = (msgSplit m).1 ∧
    joinLS (msgSplit m).1 (msgSplit m).2 = m := by
  constructor
  · rw [extractData_generateEventMessage (some m) event idv ry hev]
    exact extractData_genData m
  · exact joinLS_msgSplit m

/-- Witness: the round-trip theorem applied to the multi-line reference scenario. -/
theorem C2_roundtrip_witness :
    (∀ e, (some "update".toList : Option (List Char)) = some e → '\r' ∉ e) ∧
    (extractData (generateEventMessage (some "line1\nline2".toList) (some "update".toList) 5 3000) =
        (msgSplit "line1\nline2".toList).1 ∧
      joinLS (msgSplit "line1\nline2".toList).1 (msgSplit "line1\nline2".toList).2 =
        "line1\nline2".toList) :=
  ⟨fun e he => by injection he with h; subst h; decide,
   C2_roundtrip "line1\nline2".toList (some "update".toList) 5 3000
     (fun e he => by injection he with h; subst h; decide)⟩

/-! ### Claim C10: null-message frames carry no data line and no terminator -/

/--
C10: with a null `message` the encoder emits no `data:` line and no
terminating blank line at all - the output is exactly the enabled metadata
lines, the empty string when none is enabled (so a null-message frame is
not a well-formed SSE frame), unlike the empty-string message which yields
`"data: \r\n\r\n"`.
-/
theorem C10_null_message :
    generateEventMessage none none 0 0 = [] ∧
    generateEventMessage (some []) none 0 0 = "data: \r\n\r\n".toList ∧
    ∀ (event : Option (List Char)) (idv ry : Nat), (∀ e, event = some e → '\r' ∉ e) →
      extractData (generateEventMessage none event idv ry) = [] ∧
      ¬ (['\r', '\n', '\r', '\n'] <:+ generateEventMessage none event idv ry) := by
  refine ⟨rfl, rfl, ?_⟩
  intro event idv ry hev
  constructor
  · rw [extractData_generateEventMessage none event idv ry hev]
    exact extractData_nil
  · unfold generateEventMessage
    simp only [List.append_nil]
    cases event with
    | some e =>
      refine no_blank_suffix _ ("event: ".toList ++ e) ?_ ?_
      · rw [List.length_append]
        have h7 : ("event: ".toList).length = 7 := rfl
        omega
      · intro hc
        rcases List.mem_append.mp hc with hc | hc
        · revert hc
          decide
        · exact hev e rfl hc
    | none =>
      simp only [List.append_nil]
      by_cases hid : idv = 0
      · simp only [hid, ne_eq, not_true_eq_false, if_false, List.append_nil]
        by_cases hry : ry = 0
        · simp only [hry, ne_eq, not_true_eq_false, if_false]
          intro hc
          have := hc.length_le
          simp at this
        · rw [if_pos (show ry ≠ 0 from hry)]
          have hno := no_blank_suffix [] ("retry: ".toList ++ natToDec ry)
            (by
              rw [List.length_append]
              have h7 : ("retry: ".toList).length = 7 := rfl
              omega)
            (by
              intro hc
              rcases List.mem_append.mp hc with hc | hc
              · revert hc
                decide
              · exact natToDec_no_cr ry hc)
          simpa using hno
      · rw [if_pos (show idv ≠ 0 from hid)]
        refine no_blank_suffix _ ("id: ".toList ++ natToDec idv) ?_ ?_
        · rw [List.length_append]
          have h4 : ("id: ".toList).length = 4 := rfl
          omega
        · intro hc
          rcases List.mem_append.mp hc with hc | hc
          · revert hc
            decide
          · exact natToDec_no_cr idv hc

/-- Witness: the null-message facts instantiated at `(event="update", id=5, retry=3000)`. -/
theorem C10_null_message_witness :
    (∀ e, (some "update".toList : Option (List Char)) = some e → '\r' ∉ e) ∧
    (extractData (generateEventMessage none (some "update".toList) 5 3000) = [] ∧
      ¬ (['\r', '\n', '\r', '\n'] <:+ generateEventMessage none (some "update".toList) 5 3000)) :=
  ⟨fun e he => by injection he with h; subst h; decide,
   C10_null_message.2.2 (some "update".toList) 5 3000
     (fun e he => by injection he with h; subst h; decide)⟩

/-! ### Lemmas about `ack` and `send` -/

/-- Field-level description of one `ack` call. -/
theorem ack_spec (m : AsyncEventSourceMessage) (len : Nat) :
    (m.ack len).1._acked = min (m._acked + len) m._len ∧
    (m.ack len).2 = m._acked + len - m._len ∧
    (m.ack len).1._len = m._len ∧
    (m.ack len).1._sent = m._sent ∧
    (m.ack len).1._data = m._data := by
  unfold AsyncEventSourceMessage.ack
  split
  all_goals refine ⟨?_, ?_, rfl, rfl, rfl⟩
  all_goals simp
  all_goals omega

/-! ### Claim C3: acknowledge caps at length and returns the surplus -/

/--
C3: for every outbound message state and every acknowledged byte count
`len`, `ack` sets the acknowledged offset to `min(ackedOffset + len, length)`
and returns the surplus `ackedOffset + len - length` (truncated at zero); in
particular the surplus is `0` whenever `ackedOffset + len ≤ length`,
including the exact boundary `ackedOffset + len = length`.  The length and
sent offset are untouched.
-/
theorem C3_ack_min_surplus (m : AsyncEventSourceMessage) (len : Nat) :
    (m.ack len).1._acked = min (m._acked + len) m._len ∧
    (m.ack len).2 = m._acked + len - m._len ∧
    (m._acked + len ≤ m._len → (m.ack len).2 = 0) ∧
    (m.ack len).1._len = m._len ∧
    (m.ack len).1._sent = m._sent := by
  obtain ⟨ha, he, hl, hs, -⟩ := ack_spec m len
  exact ⟨ha, he, fun hle => by omega, hl, hs⟩

/-- Witness: the exact-boundary acknowledgment `ackedOffset + len = length` returns surplus 0. -/
theorem C3_ack_min_surplus_witness :
    2 + 3 ≤ 5 ∧ ((⟨"hello".toList, 5, 5, 2⟩ : AsyncEventSourceMessage).ack 3).2 = 0 :=
  ⟨by decide, (C3_ack_min_surplus ⟨"hello".toList, 5, 5, 2⟩ 3).2.2.1 (by decide)⟩

/-! ### Claim C5: trySend is whole-or-nothing -/

/--
C5: if the transport's available buffer space is smaller than the remaining
unsent byte count, `send` submits nothing, returns `0`, and leaves the whole
message state and the transport unchanged; otherwise it submits exactly the
remaining unsent bytes, advances the sent offset by that count, returns it,
and leaves the acknowledged offset, length and buffer unchanged.  A message
is never partially submitted.
-/
theorem C5_send_whole_or_nothing (m : AsyncEventSourceMessage) (client : AsyncClientModel) :
    (client.space < m._len - m._sent → m.send client = (m, client, 0)) ∧
    (m._len - m._sent ≤ client.space →
      (m.send client).1._sent = m._sent + (m._len - m._sent) ∧
      (m.send client).2.2 = m._len - m._sent ∧
      (m.send client).1._acked = m._acked ∧
      (m.send client).1._len = m._len ∧
      (m.send client).1._data = m._data) := by
  constructor
  · intro h
    simp [AsyncEventSourceMessage.send, h]
  · intro h
    have h2 : ¬ (client.space < m._len - m._sent) := by omega
    simp [AsyncEventSourceMessage.send, h2]

/-- Witness: a transport with 3 free bytes rejects a 5-byte message untouched. -/
theorem C5_send_whole_or_nothing_witness :
    (3 : Nat) < 5 - 0 ∧
    (⟨"hello".toList, 5, 0, 0⟩ : AsyncEventSourceMessage).send ⟨3, true, true⟩ =
      (⟨"hello".toList, 5, 0, 0⟩, ⟨3, true, true⟩, 0) :=
  ⟨by decide, (C5_send_whole_or_nothing ⟨"hello".toList, 5, 0, 0⟩ ⟨3, true, true⟩).1 (by decide)⟩

/-! ### Claim C7: the offset invariant (corrected) -/

/--
Counterexample to C7 as stated: `ack` never consults the sent offset, so
acknowledging bytes that were never submitted pushes `ackedOffset` past
`sentOffset`.  Starting from the freshly constructed (hence
invariant-satisfying) message of length 2 with nothing sent, `ack 1` yields
`ackedOffset = 1 > 0 = sentOffset`, violating
`0 ≤ ackedOffset ≤ sentOffset ≤ length`.
-/
theorem C7_invariant_cex :
    MsgInv (⟨['a', 'b'], 2, 0, 0⟩ : AsyncEventSourceMessage) ∧
    ¬ MsgInv ((⟨['a', 'b'], 2, 0, 0⟩ : AsyncEventSourceMessage).ack 1).1 := by
  constructor
  · exact ⟨by decide, by decide⟩
  · intro h
    exact absurd h.1 (by decide)

/--
C7 (amended): construction establishes the invariant
`0 ≤ ackedOffset ≤ sentOffset ≤ length`; `trySend` preserves it under any
transport state; `acknowledge(len)` preserves it for every `len` that does
not exceed the sent-but-unacknowledged byte count (`ackedOffset + len ≤
sentOffset`, as holds for transport acknowledgments of previously submitted
bytes) - and even for arbitrary `len` it still guarantees
`ackedOffset ≤ length` while leaving `sentOffset` and `length` unchanged.
-/
theorem C7_invariant_amended :
    (∀ data : List Char, MsgInv (mkEventSourceMessage data)) ∧
    (∀ (m : AsyncEventSourceMessage) (len : Nat), MsgInv m → m._acked + len ≤ m._sent →
      MsgInv (m.ack len).1) ∧
    (∀ (m : AsyncEventSourceMessage) (client : AsyncClientModel), MsgInv m →
      MsgInv (m.send client).1) ∧
    (∀ (m : AsyncEventSourceMessage) (len : Nat),
      (m.ack len).1._acked ≤ (m.ack len).1._len ∧
      (m.ack len).1._sent = m._sent ∧ (m.ack len).1._len = m._len) := by
  refine ⟨?_, ?_, ?_, ?_⟩
  · intro data
    exact ⟨Nat.le_refl 0, Nat.zero_le _⟩
  · intro m len hinv hle
    obtain ⟨ha, -, hl, hs, -⟩ := ack_spec m len
    unfold MsgInv at hinv ⊢
    rw [ha, hs, hl]
    omega
  · intro m client hinv
    obtain ⟨h1, h2⟩ := hinv
    unfold MsgInv
    by_cases h : client.space < m._len - m._sent
    · simp [AsyncEventSourceMessage.send, h]
      omega
    · simp [AsyncEventSourceMessage.send, h]
      omega
  · intro m len
    obtain ⟨ha, -, hl, hs, -⟩ := ack_spec m len
    rw [ha, hs, hl]
    exact ⟨Nat.min_le_right _ _, rfl, rfl⟩

/-- Witness: an in-window acknowledgment (2 sent, 1 acked, ack 1 more) keeps the invariant. -/
theorem C7_invariant_amended_witness :
    (MsgInv (⟨"hi".toList, 2, 2, 1⟩ : AsyncEventSourceMessage) ∧ 1 + 1 ≤ 2) ∧
    MsgInv ((⟨"hi".toList, 2, 2, 1⟩ : AsyncEventSourceMessage).ack 1).1 :=
  ⟨⟨⟨by decide, by decide⟩, by decide⟩,
   C7_invariant_amended.2.1 ⟨"hi".toList, 2, 2, 1⟩ 1 ⟨by decide, by decide⟩ (by decide)⟩

/-! ### Lemmas about the queue operations -/

/-- A message is finished exactly when its acknowledged offset reaches its length. -/
theorem finished_iff (m : AsyncEventSourceMessage) : m.finished = true ↔ m._acked = m._len := by
  simp [AsyncEventSourceMessage.finished]

/-- The empty queue absorbs any acknowledgment. -/
theorem onAckLoop_nil (len : Nat) : onAckLoop len [] = [] := by
  simp [onAckLoop]

/-- One non-trivial step of the acknowledgment loop. -/
theorem onAckLoop_cons (len : Nat) (m : AsyncEventSourceMessage)
    (ms : List AsyncEventSourceMessage) (h : len ≠ 0) :
    onAckLoop len (m :: ms) =
      (if (m.ack len).1.finished then onAckLoop (m.ack len).2 ms else (m.ack len).1 :: ms) := by
  rw [onAckLoop]
  simp [h]

/-- The acknowledgment loop preserves per-message well-formedness. -/
theorem onAckLoop_qinv : ∀ (q : List AsyncEventSourceMessage) (len : Nat),
    QInv q → QInv (onAckLoop len q) := by
  intro q
  induction q with
  | nil =>
    intro len hq
    rw [onAckLoop_nil]
    exact hq
  | cons m ms ih =>
    intro len hq
    have hm : m._acked ≤ m._len := hq m (List.mem_cons_self m ms)
    have hms : QInv ms := fun x hx => hq x (List.mem_cons_of_mem m hx)
    by_cases hlen : len = 0
    · subst hlen
      rw [onAckLoop]
      simpa using hq
    · rw [onAckLoop_cons len m ms hlen]
      obtain ⟨ha, -, hl, -, -⟩ := ack_spec m len
      by_cases hf : (m.ack len).1.finished
      · rw [if_pos hf]
        exact ih (m.ack len).2 hms
      · rw [if_neg hf]
        intro x hx
        rcases List.mem_cons.mp hx with rfl | hx
        · rw [ha, hl]
          exact Nat.min_le_right _ _
        · exact hms x hx

/-- The acknowledgment loop never lengthens the queue. -/
theorem onAckLoop_length_le : ∀ (q : List AsyncEventSourceMessage) (len : Nat),
    (onAckLoop len q).length ≤ q.length := by
  intro q
  induction q with
  | nil =>
    intro len
    rw [onAckLoop_nil]
  | cons m ms ih =>
    intro len
    by_cases hlen : len = 0
    · subst hlen
      rw [onAckLoop]
      simp
    · rw [onAckLoop_cons len m ms hlen]
      by_cases hf : (m.ack len).1.finished
      · rw [if_pos hf]
        calc (onAckLoop (m.ack len).2 ms).length ≤ ms.length := ih (m.ack len).2
          _ ≤ (m :: ms).length := by simp
      · rw [if_neg hf]
        simp

/--
The acknowledgment loop consumes exactly `len` unacknowledged bytes
(truncated at zero once the whole queue is exhausted): the key accounting
property behind the claim that total bytes acknowledged never exceed total
bytes queued.
-/
theorem onAckLoop_total : ∀ (q : List AsyncEventSourceMessage) (len : Nat), QInv q →
    totalUnacked (onAckLoop len q) = totalUnacked q - len := by
  intro q
  induction q with
  | nil =>
    intro len hq
    rw [onAckLoop_nil]
    simp [totalUnacked]
  | cons m ms ih =>
    intro len hq
    have hm : m._acked ≤ m._len := hq m (List.mem_cons_self m ms)
    have hms : QInv ms := fun x hx => hq x (List.mem_cons_of_mem m hx)
    by_cases hlen : len = 0
    · subst hlen
      rw [onAckLoop]
      simp
    · rw [onAckLoop_cons len m ms hlen]
      obtain ⟨ha, he, hl, -, -⟩ := ack_spec m len
      by_cases hf : (m.ack len).1.finished
      · rw [if_pos hf]
        have hfin : (m.ack len).1._acked = (m.ack len).1._len := (finished_iff _).mp hf
        rw [ha, hl] at hfin
        have hge : m._len ≤ m._acked + len := by omega
        rw [ih (m.ack len).2 hms, he]
        simp only [totalUnacked, List.map_cons, List.sum_cons]
        omega
      · rw [if_neg hf]
        have hnfin : ¬ (m.ack len).1._acked = (m.ack len).1._len := by
          intro hc
          exact hf ((finished_iff _).mpr hc)
        rw [ha, hl] at hnfin
        have hlt : m._acked + len < m._len := by omega
        simp only [totalUnacked, List.map_cons, List.sum_cons, ha, hl]
        omega

/-- Removing the finished prefix does not change the unacknowledged byte count. -/
theorem dropFinished_total : ∀ (q : List AsyncEventSourceMessage),
    totalUnacked (dropFinished q) = totalUnacked q := by
  intro q
  induction q with
  | nil => rfl
  | cons m ms ih =>
    by_cases hf : m.finished
    · have hae : m._acked = m._len := (finished_iff m).mp hf
      rw [dropFinished, if_pos hf, ih]
      simp only [totalUnacked, List.map_cons, List.sum_cons]
      omega
    · simp only [dropFinished, hf, Bool.false_eq_true, if_false]

/-- Removing the finished prefix preserves per-message well-formedness. -/
theorem dropFinished_qinv : ∀ (q : List AsyncEventSourceMessage), QInv q →
    QInv (dropFinished q) := by
  intro q
  induction q with
  | nil =>
    intro hq
    exact hq
  | cons m ms ih =>
    intro hq
    have hms : QInv ms := fun x hx => hq x (List.mem_cons_of_mem m hx)
    by_cases hf : m.finished
    · simp only [dropFinished, hf, if_true]
      exact ih hms
    · simp only [dropFinished, hf, Bool.false_eq_true, if_false]
      exact hq

/-- Removing the finished prefix never lengthens the queue. -/
theorem dropFinished_length_le : ∀ (q : List AsyncEventSourceMessage),
    (dropFinished q).length ≤ q.length := by
  intro q
  induction q with
  | nil => simp [dropFinished]
  | cons m ms ih =>
    by_cases hf : m.finished
    · simp only [dropFinished, hf, if_true]
      calc (dropFinished ms).length ≤ ms.length := ih
        _ ≤ (m :: ms).length := by simp
    · rw [dropFinished, if_neg hf]

/-- Every survivor of the finished-prefix removal was in the original queue. -/
theorem dropFinished_mem : ∀ (q : List AsyncEventSourceMessage) (x : AsyncEventSourceMessage),
    x ∈ dropFinished q → x ∈ q := by
  intro q
  induction q with
  | nil =>
    intro x hx
    exact hx
  | cons m ms ih =>
    intro x hx
    by_cases hf : m.finished
    · rw [dropFinished, if_pos hf] at hx
      exact List.mem_cons_of_mem m (ih x hx)
    · rw [dropFinished, if_neg hf] at hx
      exact hx

/-- A fully acknowledged well-formed queue is entirely finished and is dropped whole. -/
theorem dropFinished_all (q : List AsyncEventSourceMessage) (hq : QInv q)
    (h0 : totalUnacked q = 0) : dropFinished q = [] := by
  induction q with
  | nil => rfl
  | cons m ms ih =>
    have hm : m._acked ≤ m._len := hq m (List.mem_cons_self m ms)
    have hms : QInv ms := fun x hx => hq x (List.mem_cons_of_mem m hx)
    simp only [totalUnacked, List.map_cons, List.sum_cons] at h0
    have hmz : m._len - m._acked = 0 := by omega
    have hf : m.finished = true := (finished_iff m).mpr (by omega)
    rw [dropFinished, if_pos hf]
    exact ih hms (by simp [totalUnacked]; omega)

/-- The send walk preserves each message's length, acknowledged offset and payload. -/
theorem runQueueLoop_trip : ∀ (q : List AsyncEventSourceMessage) (cl : AsyncClientModel),
    (runQueueLoop q cl).1.map (fun m => (m._len, m._acked, m._data)) =
      q.map (fun m => (m._len, m._acked, m._data)) := by
  intro q
  induction q with
  | nil =>
    intro cl
    rfl
  | cons m ms ih =>
    intro cl
    by_cases hs : m.sent
    · simp only [runQueueLoop, hs, if_true, List.map_cons, ih]
    · simp only [runQueueLoop, hs, Bool.false_eq_true, if_false, List.map_cons, ih]
      by_cases hsp : cl.space < m._len - m._sent
      · simp [AsyncEventSourceMessage.send, hsp]
      · simp [AsyncEventSourceMessage.send, hsp]

/-- The send walk leaves the transport's connection state alone. -/
theorem runQueueLoop_connected : ∀ (q : List AsyncEventSourceMessage) (cl : AsyncClientModel),
    (runQueueLoop q cl).2.connected = cl.connected := by
  intro q
  induction q with
  | nil =>
    intro cl
    rfl
  | cons m ms ih =>
    intro cl
    by_cases hs : m.sent
    · simp only [runQueueLoop, hs, if_true]
      exact ih cl
    · simp only [runQueueLoop, hs, Bool.false_eq_true, if_false]
      rw [ih]
      by_cases hsp : cl.space < m._len - m._sent
      · simp [AsyncEventSourceMessage.send, hsp]
      · simp [AsyncEventSourceMessage.send, hsp]

/-- Queues with identical footprints have the same unacknowledged byte count. -/
theorem totalUnacked_congr (x y : List AsyncEventSourceMessage)
    (h : x.map (fun m => (m._len, m._acked, m._data)) =
      y.map (fun m => (m._len, m._acked, m._data))) : totalUnacked x = totalUnacked y := by
  unfold totalUnacked
  have hx : x.map (fun m => m._len - m._acked) =
      (x.map (fun m => (m._len, m._acked, m._data))).map
        (fun p : Nat × Nat × List Char => p.1 - p.2.1) := by
    rw [List.map_map]
    rfl
  have hy : y.map (fun m => m._len - m._acked) =
      (y.map (fun m => (m._len, m._acked, m._data))).map
        (fun p : Nat × Nat × List Char => p.1 - p.2.1) := by
    rw [List.map_map]
    rfl
  rw [hx, hy, h]

/-- Queues with identical footprints share the well-formedness invariant. -/
theorem qinv_congr (x y : List AsyncEventSourceMessage)
    (h : x.map (fun m => (m._len, m._acked, m._data)) =
      y.map (fun m => (m._len, m._acked, m._data))) (hy : QInv y) : QInv x := by
  intro m hm
  have : (m._len, m._acked, m._data) ∈ y.map (fun m => (m._len, m._acked, m._data)) := by
    rw [← h]
    exact List.mem_map_of_mem _ hm
  obtain ⟨m', hm', he⟩ := List.mem_map.mp this
  have h1 : m'._len = m._len := congrArg Prod.fst he
  have h2 : m'._acked = m._acked := congrArg (fun p => p.2.1) he
  rw [← h1, ← h2]
  exact hy m' hm'

/-! ### Session-level lemmas -/

/-- The send walk preserves the queue length. -/
theorem runQueueLoop_length (q : List AsyncEventSourceMessage) (cl : AsyncClientModel) :
    (runQueueLoop q cl).1.length = q.length := by
  have h := congrArg List.length (runQueueLoop_trip q cl)
  simpa using h

/-- Draining does not change the unacknowledged byte count. -/
theorem runQueue_total (c : AsyncEventSourceClient) :
    totalUnacked (c._runQueue)._messageQueue = totalUnacked c._messageQueue := by
  unfold AsyncEventSourceClient._runQueue
  cases hc : c._client with
  | none => simp [dropFinished_total]
  | some cl =>
    simp only
    rw [totalUnacked_congr _ _ (runQueueLoop_trip (dropFinished c._messageQueue) cl),
      dropFinished_total]

/-- Draining preserves per-message well-formedness. -/
theorem runQueue_qinv (c : AsyncEventSourceClient) (hq : QInv c._messageQueue) :
    QInv (c._runQueue)._messageQueue := by
  unfold AsyncEventSourceClient._runQueue
  cases hc : c._client with
  | none => simpa using dropFinished_qinv _ hq
  | some cl =>
    simp only
    exact qinv_congr _ _ (runQueueLoop_trip (dropFinished c._messageQueue) cl)
      (dropFinished_qinv _ hq)

/-- Draining never lengthens the queue. -/
theorem runQueue_length_le (c : AsyncEventSourceClient) :
    (c._runQueue)._messageQueue.length ≤ c._messageQueue.length := by
  unfold AsyncEventSourceClient._runQueue
  cases hc : c._client with
  | none => simpa using dropFinished_length_le _
  | some cl =>
    simp only
    rw [runQueueLoop_length]
    exact dropFinished_length_le _

/-- Draining a fully acknowledged well-formed queue empties it. -/
theorem runQueue_empty (c : AsyncEventSourceClient) (hq : QInv c._messageQueue)
    (h0 : totalUnacked c._messageQueue = 0) : (c._runQueue)._messageQueue = [] := by
  have hd : dropFinished c._messageQueue = [] := dropFinished_all _ hq h0
  unfold AsyncEventSourceClient._runQueue
  cases hc : c._client with
  | none => simpa using hd
  | some cl =>
    simp only
    rw [hd]
    rfl

/-- Draining does not change whether the session is connected. -/
theorem runQueue_connected (c : AsyncEventSourceClient) :
    (c._runQueue).connected = c.connected := by
  unfold AsyncEventSourceClient._runQueue AsyncEventSourceClient.connected
  cases hc : c._client with
  | none => simp
  | some cl =>
    simp only
    exact runQueueLoop_connected _ cl

/-- Every message buffer present after a drain was present before it. -/
theorem runQueue_mem_data (c : AsyncEventSourceClient) :
    ∀ e ∈ (c._runQueue)._messageQueue, ∃ e' ∈ c._messageQueue, e'._data = e._data := by
  unfold AsyncEventSourceClient._runQueue
  cases hc : c._client with
  | none =>
    intro e he
    simp only at he
    exact ⟨e, dropFinished_mem _ e he, rfl⟩
  | some cl =>
    intro e he
    simp only at he
    have : (e._len, e._acked, e._data) ∈
        (dropFinished c._messageQueue).map (fun m => (m._len, m._acked, m._data)) := by
      rw [← runQueueLoop_trip (dropFinished c._messageQueue) cl]
      exact List.mem_map_of_mem _ he
    obtain ⟨e', he', hee⟩ := List.mem_map.mp this
    exact ⟨e', dropFinished_mem _ e' he', congrArg (fun p => p.2.2) hee⟩

/-- Acknowledgment handling consumes exactly the acknowledged bytes and keeps the queue well-formed. -/
theorem onAck_total (c : AsyncEventSourceClient) (len : Nat) (hq : QInv c._messageQueue) :
    totalUnacked ((c._onAck len))._messageQueue = totalUnacked c._messageQueue - len ∧
    QInv ((c._onAck len))._messageQueue := by
  unfold AsyncEventSourceClient._onAck
  constructor
  · rw [runQueue_total]
    simpa using onAckLoop_total c._messageQueue len hq
  · exact runQueue_qinv _ (by simpa using onAckLoop_qinv c._messageQueue len hq)

/-- Acknowledging at least the whole outstanding byte count empties the queue. -/
theorem onAck_flush (c : AsyncEventSourceClient) (len : Nat) (hq : QInv c._messageQueue)
    (hge : totalUnacked c._messageQueue ≤ len) : (c._onAck len)._messageQueue = [] := by
  unfold AsyncEventSourceClient._onAck
  refine runQueue_empty _ (by simpa using onAckLoop_qinv c._messageQueue len hq) ?_
  have h := onAckLoop_total c._messageQueue len hq
  simpa [h] using by omega

/-! ### Claim C4: exact cumulative acknowledgment drains the queue -/

/--
C4: on a session whose queued messages are well-formed (no message
acknowledged past its length, as construction and `ack` guarantee),
applying the acknowledgment handler with byte counts summing to exactly the
total unacknowledged byte length (across one or more calls) leaves the
queue empty; and each single acknowledgment call consumes exactly its byte
count from the queue's outstanding total (truncated at zero once the whole
queue is exhausted - surplus beyond the queue is discarded, never carried),
with the surplus redistribution applied to the next message in queue order
by the front-to-back loop.
-/
theorem C4_exact_ack_drains :
    (∀ (c : AsyncEventSourceClient) (calls : List Nat),
      QInv c._messageQueue → calls ≠ [] → calls.sum = totalUnacked c._messageQueue →
      (calls.foldl (fun s l => s._onAck l) c)._messageQueue = []) ∧
    (∀ (c : AsyncEventSourceClient) (len : Nat), QInv c._messageQueue →
      totalUnacked ((c._onAck len))._messageQueue = totalUnacked c._messageQueue - len ∧
      QInv ((c._onAck len))._messageQueue) := by
  constructor
  · intro c calls
    induction calls generalizing c with
    | nil =>
      intro _ hne _
      exact absurd rfl hne
    | cons l rest ih =>
      intro hq hne hsum
      cases rest with
      | nil =>
        simp only [List.foldl_cons, List.foldl_nil]
        refine onAck_flush c l hq ?_
        simp only [List.sum_cons, List.sum_nil] at hsum
        omega
      | cons l2 rest2 =>
        simp only [List.foldl_cons]
        obtain ⟨ht, hq2⟩ := onAck_total c l hq
        refine ih (c._onAck l) hq2 (by simp) ?_
        rw [ht]
        simp only [List.sum_cons] at hsum ⊢
        omega
  · intro c len hq
    exact onAck_total c len hq

/-- Witness: two acknowledgment calls totalling the queued 5 bytes empty a two-message queue. -/
theorem C4_exact_ack_drains_witness :
    (QInv [(⟨"ab".toList, 2, 2, 0⟩ : AsyncEventSourceMessage), ⟨"cde".toList, 3, 3, 0⟩] ∧
      ([3, 2] : List Nat) ≠ [] ∧
      ([3, 2] : List Nat).sum =
        totalUnacked [(⟨"ab".toList, 2, 2, 0⟩ : AsyncEventSourceMessage), ⟨"cde".toList, 3, 3, 0⟩]) ∧
    (([3, 2] : List Nat).foldl (fun s l => s._onAck l)
        (⟨[⟨"ab".toList, 2, 2, 0⟩, ⟨"cde".toList, 3, 3, 0⟩],
          some ⟨10, true, true⟩⟩ : AsyncEventSourceClient))._messageQueue = [] :=
  ⟨⟨by decide, by decide, by decide⟩,
   C4_exact_ack_drains.1
     (⟨[⟨"ab".toList, 2, 2, 0⟩, ⟨"cde".toList, 3, 3, 0⟩],
       some ⟨10, true, true⟩⟩ : AsyncEventSourceClient)
     [3, 2] (by decide) (by decide) (by decide)⟩

/-! ### Lemmas about `_queueMessage` -/

/-- Enqueuing never pushes the queue past the cap. -/
theorem queueMessage_length_le (c : AsyncEventSourceClient)
    (msg : Option AsyncEventSourceMessage)
    (hle : c._messageQueue.length ≤ SSE_MAX_QUEUED_MESSAGES) :
    (c._queueMessage msg)._messageQueue.length ≤ SSE_MAX_QUEUED_MESSAGES := by
  cases msg with
  | none => exact hle
  | some m =>
    unfold AsyncEventSourceClient._queueMessage
    dsimp only
    by_cases hcon : c.connected = false
    · rw [if_pos hcon]
      exact hle
    · rw [if_neg hcon]
      by_cases hcap : SSE_MAX_QUEUED_MESSAGES ≤ c._messageQueue.length
      · rw [if_pos hcap]
        by_cases hcs : c.clientCanSend = true
        · rw [if_pos hcs]
          calc (c._runQueue)._messageQueue.length ≤ c._messageQueue.length := runQueue_length_le c
            _ ≤ SSE_MAX_QUEUED_MESSAGES := hle
        · rw [if_neg hcs]
          exact hle
      · rw [if_neg hcap]
        have hlt : c._messageQueue.length < SSE_MAX_QUEUED_MESSAGES := by omega
        by_cases hcs : c.clientCanSend = true
        · rw [if_pos hcs]
          calc ({ c with _messageQueue := c._messageQueue ++ [m] } :
                AsyncEventSourceClient)._runQueue._messageQueue.length
              ≤ (c._messageQueue ++ [m]).length := runQueue_length_le _
            _ ≤ SSE_MAX_QUEUED_MESSAGES := by
                simp only [List.length_append, List.length_cons, List.length_nil]
                omega
        · rw [if_neg hcs]
          simp only [List.length_append, List.length_cons, List.length_nil]
          omega

/-- At the cap with a transport that cannot send, enqueuing is a no-op on the whole session. -/
theorem queueMessage_at_cap (c : AsyncEventSourceClient) (m : AsyncEventSourceMessage)
    (hcap : SSE_MAX_QUEUED_MESSAGES ≤ c._messageQueue.length)
    (hcs : c.clientCanSend = false) : c._queueMessage (some m) = c := by
  have hcs' : ¬ c.clientCanSend = true := by
    rw [hcs]
    exact Bool.false_ne_true
  unfold AsyncEventSourceClient._queueMessage
  dsimp only
  by_cases hcon : c.connected = false
  · rw [if_pos hcon]
  · rw [if_neg hcon, if_pos hcap, if_neg hcs']

/-- Enqueuing never changes whether the session is connected. -/
theorem queueMessage_connected (c : AsyncEventSourceClient)
    (msg : Option AsyncEventSourceMessage) :
    (c._queueMessage msg).connected = c.connected := by
  cases msg with
  | none => rfl
  | some m =>
    unfold AsyncEventSourceClient._queueMessage
    dsimp only
    by_cases hcon : c.connected = false
    · rw [if_pos hcon]
    · rw [if_neg hcon]
      by_cases hcap : SSE_MAX_QUEUED_MESSAGES ≤ c._messageQueue.length
      · rw [if_pos hcap]
        by_cases hcs : c.clientCanSend = true
        · rw [if_pos hcs]
          exact runQueue_connected c
        · rw [if_neg hcs]
      · rw [if_neg hcap]
        by_cases hcs : c.clientCanSend = true
        · rw [if_pos hcs, runQueue_connected]
          rfl
        · rw [if_neg hcs]
          rfl

/-- At the cap, no message carrying fresh bytes ever enters the queue. -/
theorem queueMessage_cap_data (c : AsyncEventSourceClient) (m : AsyncEventSourceMessage)
    (hcap : SSE_MAX_QUEUED_MESSAGES ≤ c._messageQueue.length)
    (hfresh : ∀ e ∈ c._messageQueue, e._data ≠ m._data) :
    ∀ e ∈ (c._queueMessage (some m))._messageQueue, e._data ≠ m._data := by
  unfold AsyncEventSourceClient._queueMessage
  dsimp only
  by_cases hcon : c.connected = false
  · rw [if_pos hcon]
    exact hfresh
  · rw [if_neg hcon, if_pos hcap]
    by_cases hcs : c.clientCanSend = true
    · rw [if_pos hcs]
      intro e he
      obtain ⟨e', he', hee⟩ := runQueue_mem_data c e he
      rw [← hee]
      exact hfresh e' he'
    · rw [if_neg hcs]
      exact hfresh

/-- Polling never lengthens the queue. -/
theorem onPoll_length_le (c : AsyncEventSourceClient) :
    (c._onPoll)._messageQueue.length ≤ c._messageQueue.length := by
  unfold AsyncEventSourceClient._onPoll
  by_cases he : c._messageQueue.isEmpty
  · simp [he]
  · simp only [he, Bool.false_eq_true, if_false]
    exact runQueue_length_le c

/-- Acknowledgment handling never lengthens the queue. -/
theorem onAck_length_le (c : AsyncEventSourceClient) (len : Nat) :
    (c._onAck len)._messageQueue.length ≤ c._messageQueue.length := by
  unfold AsyncEventSourceClient._onAck
  calc (AsyncEventSourceClient._runQueue
        { c with _messageQueue := onAckLoop len c._messageQueue })._messageQueue.length
      ≤ (onAckLoop len c._messageQueue).length := runQueue_length_le _
    _ ≤ c._messageQueue.length := onAckLoop_length_le c._messageQueue len

/-- At the cap, enqueuing never lengthens the queue beyond its current size. -/
theorem queueMessage_at_cap_length (c : AsyncEventSourceClient) (m : AsyncEventSourceMessage)
    (hcap : SSE_MAX_QUEUED_MESSAGES ≤ c._messageQueue.length) :
    (c._queueMessage (some m))._messageQueue.length ≤ c._messageQueue.length := by
  unfold AsyncEventSourceClient._queueMessage
  dsimp only
  by_cases hcon : c.connected = false
  · rw [if_pos hcon]
  · rw [if_neg hcon, if_pos hcap]
    by_cases hcs : c.clientCanSend = true
    · rw [if_pos hcs]
      exact runQueue_length_le c
    · rw [if_neg hcs]

/-! ### Claim C6: the queue cap (corrected) -/

/--
Counterexample to C6 as stated: enqueuing beyond the cap does discard the
new message, but `_queueMessage` then immediately drains when the transport
can send, and the drain removes already-fully-acknowledged entries - so a
session at the cap whose entries are all fully acknowledged ends the
enqueue with an *empty* queue, not a queue still at the cap size with its
entries untouched.
-/
theorem C6_cap_cex :
    (⟨List.replicate 32 ⟨['x'], 1, 1, 1⟩, some ⟨0, true, true⟩⟩ :
      AsyncEventSourceClient)._messageQueue.length = SSE_MAX_QUEUED_MESSAGES ∧
    ((⟨List.replicate 32 ⟨['x'], 1, 1, 1⟩, some ⟨0, true, true⟩⟩ :
      AsyncEventSourceClient)._queueMessage
        (some (mkEventSourceMessage ['y'])))._messageQueue.length = 0 := by
  exact ⟨rfl, rfl⟩

/--
C6 (amended): at the cap the newly offered message is discarded - the
session keeps its connection, the queue never grows, no entry carrying the
new message's bytes appears, and when the transport cannot send the whole
session state is left exactly unchanged (cap size, entries untouched, same
order); the immediately-triggered drain may only remove already-delivered
entries.  Moreover every session operation (enqueue, acknowledge, poll)
preserves queue-length ≤ SSE_MAX_QUEUED_MESSAGES (= 32).
-/
theorem C6_cap_amended :
    (∀ (c : AsyncEventSourceClient) (m : AsyncEventSourceMessage),
      SSE_MAX_QUEUED_MESSAGES ≤ c._messageQueue.length →
      (c.clientCanSend = false → c._queueMessage (some m) = c) ∧
      (c._queueMessage (some m))._messageQueue.length ≤ c._messageQueue.length ∧
      (c._queueMessage (some m)).connected = c.connected ∧
      ((∀ e ∈ c._messageQueue, e._data ≠ m._data) →
        ∀ e ∈ (c._queueMessage (some m))._messageQueue, e._data ≠ m._data)) ∧
    (∀ (c : AsyncEventSourceClient) (msg : Option AsyncEventSourceMessage),
      c._messageQueue.length ≤ SSE_MAX_QUEUED_MESSAGES →
      (c._queueMessage msg)._messageQueue.length ≤ SSE_MAX_QUEUED_MESSAGES) ∧
    (∀ (c : AsyncEventSourceClient) (len : Nat),
      (c._onAck len)._messageQueue.length ≤ c._messageQueue.length) ∧
    (∀ c : AsyncEventSourceClient, (c._onPoll)._messageQueue.length ≤ c._messageQueue.length) := by
  refine ⟨?_, ?_, ?_, ?_⟩
  · intro c m hcap
    exact ⟨fun hcs => queueMessage_at_cap c m hcap hcs,
      queueMessage_at_cap_length c m hcap,
      queueMessage_connected c (some m),
      fun hfresh => queueMessage_cap_data c m hcap hfresh⟩
  · intro c msg hle
    exact queueMessage_length_le c msg hle
  · intro c len
    exact onAck_length_le c len
  · intro c
    exact onPoll_length_le c

/-- Witness: a 33rd message offered to a capped session over a send-blocked transport is a no-op. -/
theorem C6_cap_amended_witness :
    SSE_MAX_QUEUED_MESSAGES ≤
      (⟨List.replicate 32 ⟨['x'], 1, 0, 0⟩, some ⟨0, false, true⟩⟩ :
        AsyncEventSourceClient)._messageQueue.length ∧
    (⟨List.replicate 32 ⟨['x'], 1, 0, 0⟩, some ⟨0, false, true⟩⟩ :
      AsyncEventSourceClient).clientCanSend = false ∧
    (⟨List.replicate 32 ⟨['x'], 1, 0, 0⟩, some ⟨0, false, true⟩⟩ :
      AsyncEventSourceClient)._queueMessage (some (mkEventSourceMessage ['y'])) =
      ⟨List.replicate 32 ⟨['x'], 1, 0, 0⟩, some ⟨0, false, true⟩⟩ :=
  ⟨by decide, rfl,
   (C6_cap_amended.1
     (⟨List.replicate 32 ⟨['x'], 1, 0, 0⟩, some ⟨0, false, true⟩⟩ : AsyncEventSourceClient)
     (mkEventSourceMessage ['y']) (by decide)).1 rfl⟩

/-! ### Copy-counting lemmas for the broadcast claim -/

/-- Sending never changes a message's buffer. -/
theorem send_data (m : AsyncEventSourceMessage) (cl : AsyncClientModel) :
    (m.send cl).1._data = m._data := by
  by_cases hsp : cl.space < m._len - m._sent
  · simp [AsyncEventSourceMessage.send, hsp]
  · simp [AsyncEventSourceMessage.send, hsp]

/-- The send walk preserves the number of copies of any byte buffer. -/
theorem runQueueLoop_countFrame : ∀ (q : List AsyncEventSourceMessage) (cl : AsyncClientModel)
    (bytes : List Char), countFrame (runQueueLoop q cl).1 bytes = countFrame q bytes := by
  intro q
  induction q with
  | nil =>
    intro cl bytes
    rfl
  | cons m ms ih =>
    intro cl bytes
    by_cases hs : m.sent
    · simp only [runQueueLoop, hs, if_true]
      unfold countFrame
      rw [List.countP_cons, List.countP_cons]
      have hih := ih cl bytes
      unfold countFrame at hih
      rw [hih]
    · simp only [runQueueLoop, hs, Bool.false_eq_true, if_false]
      unfold countFrame
      rw [List.countP_cons, List.countP_cons]
      have hih := ih (m.send cl).2.1 bytes
      unfold countFrame at hih
      rw [hih]
      simp only [send_data]

/-- Removing the finished prefix commutes with appending an unfinished message. -/
theorem dropFinished_append_unfinished :
    ∀ (q : List AsyncEventSourceMessage) (x : AsyncEventSourceMessage),
    x.finished = false → dropFinished (q ++ [x]) = dropFinished q ++ [x] := by
  intro q
  induction q with
  | nil =>
    intro x hx
    simp [dropFinished, hx]
  | cons m ms ih =>
    intro x hx
    by_cases hf : m.finished
    · simp only [List.cons_append, dropFinished, hf, if_true]
      exact ih x hx
    · simp only [List.cons_append, dropFinished, hf, Bool.false_eq_true, if_false]
      rfl

/-- A queue with no copy of the bytes counts zero copies. -/
theorem countFrame_zero (q : List AsyncEventSourceMessage) (bytes : List Char)
    (h : ∀ e ∈ q, e._data ≠ bytes) : countFrame q bytes = 0 := by
  unfold countFrame
  refine List.countP_eq_zero.mpr ?_
  intro e he
  simp [h e he]

/--
Writing fresh nonempty bytes to a connected session whose queue is below
the cap leaves exactly one copy of those bytes in the queue, whatever the
immediately-triggered drain does.
-/
theorem write_fresh_count (c : AsyncEventSourceClient) (bytes : List Char)
    (hcon : c.connected = true) (hcap : c._messageQueue.length < SSE_MAX_QUEUED_MESSAGES)
    (hfresh : ∀ e ∈ c._messageQueue, e._data ≠ bytes) (hne : bytes ≠ []) :
    countFrame (c.write bytes)._messageQueue bytes = 1 := by
  have hnf : (mkEventSourceMessage bytes).finished = false := by
    have hpos : 0 < bytes.length := List.length_pos.mpr hne
    simp only [AsyncEventSourceMessage.finished, mkEventSourceMessage]
    simp only [beq_iff_eq, beq_eq_false_iff_ne, ne_eq]
    omega
  have hone : countFrame (dropFinished c._messageQueue ++ [mkEventSourceMessage bytes]) bytes
      = 1 := by
    unfold countFrame
    rw [List.countP_append]
    have h0 : List.countP (fun e => e._data == bytes) (dropFinished c._messageQueue) = 0 :=
      countFrame_zero _ _ (fun e he => hfresh e (dropFinished_mem _ e he))
    rw [h0]
    simp [mkEventSourceMessage]
  unfold AsyncEventSourceClient.write AsyncEventSourceClient._queueMessage
  dsimp only
  rw [if_neg (show ¬ c.connected = false by rw [hcon]; exact fun hc => Bool.noConfusion hc),
    if_neg (show ¬ SSE_MAX_QUEUED_MESSAGES ≤ c._messageQueue.length by omega)]
  by_cases hcs : c.clientCanSend = true
  · rw [if_pos hcs]
    unfold AsyncEventSourceClient._runQueue
    cases hcl : c._client with
    | none =>
      rw [AsyncEventSourceClient.connected, hcl] at hcon
      exact absurd hcon (by simp)
    | some cl =>
      dsimp only
      rw [runQueueLoop_countFrame, dropFinished_append_unfinished _ _ hnf]
      exact hone
  · rw [if_neg hcs]
    dsimp only
    unfold countFrame
    rw [List.countP_append]
    have h0 : List.countP (fun e => e._data == bytes) c._messageQueue = 0 :=
      countFrame_zero _ _ hfresh
    rw [h0]
    simp [mkEventSourceMessage]

/-- The broadcast is a map of the per-session write over the client list. -/
theorem hubSend_clients (hub : AsyncEventSource) (message event : Option (List Char))
    (idv ry : Nat) :
    (hub.send message event idv ry)._clients =
      hub._clients.map (fun c =>
        if c.connected = true then c.write (generateEventMessage message event idv ry) else c) :=
  rfl

/-! ### Claim C8: broadcast fan-out (corrected) -/

/--
Counterexample to C8 as stated: a broadcast must enqueue one copy on
*every* connected session, but a connected session whose queue already
holds `SSE_MAX_QUEUED_MESSAGES` entries sheds the offered copy - after the
broadcast its queue holds zero copies of the frame.
-/
theorem C8_broadcast_cex :
    (⟨List.replicate 32 ⟨['x'], 1, 0, 0⟩, some ⟨0, false, true⟩⟩ :
      AsyncEventSourceClient).connected = true ∧
    ((AsyncEventSource.send
        ⟨[], [⟨List.replicate 32 ⟨['x'], 1, 0, 0⟩, some ⟨0, false, true⟩⟩]⟩
        (some "hello".toList) none 0 0)._clients.map
      (fun c => countFrame c._messageQueue
        (generateEventMessage (some "hello".toList) none 0 0))) = [0] := by
  exact ⟨rfl, rfl⟩

/--
C8 (amended): a broadcast `send` encodes the frame once and maps the
per-session `write` of that one frame over the registered sessions: the
session list keeps its length and order, every session whose transport is
not connected is left completely unchanged, and every connected session
whose queue is below the cap receives exactly one private copy of the frame
(connected sessions at the cap shed it, receiving zero copies).  Stated for
a nonempty frame whose bytes are not already queued, so that copies are
countable.
-/
theorem C8_broadcast_amended (hub : AsyncEventSource) (message event : Option (List Char))
    (idv ry : Nat) (i : Nat) (c : AsyncEventSourceClient)
    (hc : hub._clients[i]? = some c) :
    (hub.send message event idv ry)._clients.length = hub._clients.length ∧
    (c.connected = false → (hub.send message event idv ry)._clients[i]? = some c) ∧
    (c.connected = true →
      (hub.send message event idv ry)._clients[i]? =
        some (c.write (generateEventMessage message event idv ry)) ∧
      (c._messageQueue.length < SSE_MAX_QUEUED_MESSAGES →
        generateEventMessage message event idv ry ≠ [] →
        (∀ e ∈ c._messageQueue, e._data ≠ generateEventMessage message event idv ry) →
        countFrame (c.write (generateEventMessage message event idv ry))._messageQueue
          (generateEventMessage message event idv ry) = 1)) := by
  refine ⟨?_, ?_, ?_⟩
  · rw [hubSend_clients]
    exact List.length_map _ _
  · intro hfalse
    rw [hubSend_clients, List.getElem?_map, hc]
    simp [hfalse]
  · intro htrue
    constructor
    · rw [hubSend_clients, List.getElem?_map, hc]
      simp [htrue]
    · intro hcap hne hfresh
      exact write_fresh_count c _ htrue hcap hfresh hne

/-- Witness: a hub with one connected empty-queue session delivers exactly one copy. -/
theorem C8_broadcast_amended_witness :
    ((⟨[], [⟨[], some ⟨0, false, true⟩⟩]⟩ : AsyncEventSource)._clients[0]? =
      some ⟨[], some ⟨0, false, true⟩⟩) ∧
    (⟨[], some ⟨0, false, true⟩⟩ : AsyncEventSourceClient).connected = true ∧
    countFrame ((⟨[], some ⟨0, false, true⟩⟩ : AsyncEventSourceClient).write
        (generateEventMessage (some "hello".toList) none 0 0))._messageQueue
      (generateEventMessage (some "hello".toList) none 0 0) = 1 :=
  ⟨rfl, rfl,
   ((C8_broadcast_amended ⟨[], [⟨[], some ⟨0, false, true⟩⟩]⟩ (some "hello".toList) none 0 0 0
       ⟨[], some ⟨0, false, true⟩⟩ rfl).2.2 rfl).2 (by decide) (by decide) (by decide)⟩

/-! ### Claim C9: the average-queue-depth divisor (corrected) -/

/--
Counterexample to C9 as stated: a reachable hub state can have a non-empty
client list with zero connected clients, so the emptiness check does not
protect the division.  Reached by admitting one session and then calling
the hub's `close()`, which (per the spec) closes the transport while the
session detaches only later via its own disconnect callback: the session is
still listed, reports not connected, and `nConnectedClients` - the divisor
of `avgPacketsWaiting` - is zero.
-/
theorem C9_divisor_cex :
    ReachableHub
      (AsyncEventSource.close
        (AsyncEventSource._addClient ⟨[], []⟩ ⟨[], some ⟨0, false, true⟩⟩)) ∧
    (AsyncEventSource.close
      (AsyncEventSource._addClient ⟨[], []⟩ ⟨[], some ⟨0, false, true⟩⟩))._clients.length = 1 ∧
    nConnectedClients
      (AsyncEventSource.close
        (AsyncEventSource._addClient ⟨[], []⟩ ⟨[], some ⟨0, false, true⟩⟩)) = 0 := by
  refine ⟨?_, rfl, rfl⟩
  exact ReachableHub.closeHub _
    (ReachableHub.admitSession ⟨[], []⟩ ⟨0, false, true⟩ (ReachableHub.init []) rfl)

/--
C9 (amended): the divisor `nConnectedClients` of `avgPacketsWaiting` is
nonzero exactly when some listed client reports connected; the non-empty
list check alone does not guarantee this, since reachable states (after
`close()`, before the deferred disconnect callbacks) list clients none of
which is connected.
-/
theorem C9_divisor_amended (s : AsyncEventSource)
    (h : ∃ c ∈ s._clients, c.connected = true) : nConnectedClients s ≠ 0 := by
  obtain ⟨c, hc, hcon⟩ := h
  unfold nConnectedClients
  intro hz
  rw [List.length_eq_zero] at hz
  have hmem : c ∈ s._clients.filter (fun c => c.connected) :=
    List.mem_filter.mpr ⟨hc, by simpa using hcon⟩
  rw [hz] at hmem
  exact absurd hmem (List.not_mem_nil c)

/-- Witness: with one connected listed client the divisor is nonzero. -/
theorem C9_divisor_amended_witness :
    (∃ c ∈ (⟨[], [⟨[], some ⟨0, false, true⟩⟩]⟩ : AsyncEventSource)._clients,
      c.connected = true) ∧
    nConnectedClients (⟨[], [⟨[], some ⟨0, false, true⟩⟩]⟩ : AsyncEventSource) ≠ 0 :=
  ⟨⟨⟨[], some ⟨0, false, true⟩⟩, List.mem_cons_self _ _, rfl⟩,
   C9_divisor_amended ⟨[], [⟨[], some ⟨0, false, true⟩⟩]⟩
     ⟨⟨[], some ⟨0, false, true⟩⟩, List.mem_cons_self _ _, rfl⟩⟩
